import Mathlib

/-!
Verification of the compute core of `Evyn710/mandelbrot` (src/main.rs).

The whole compute engine of the repository is the function
`threaded_fractal_calc` (src/main.rs lines 130-199).  It is embedded here
shallowly:

* `f32` arithmetic is modelled by exact rational arithmetic (ℚ): every
  arithmetic expression of the code is transcribed literally and evaluated
  exactly instead of with `f32` rounding, and every claim is settled in this
  exact model.  The dimension arithmetic is unaffected by the idealisation:
  the literals and the pixel/dimension integers are exactly representable and
  `bounds.height / 32.0` divides by a power of two, hence is exact in `f32`,
  so the `as usize` truncation is natural floor division.  The per-pixel
  plane coordinates, the `k/255` color channels and `z.norm()` do round in
  `f32`; the exact model evaluates the same expressions without rounding.
* the magnitude test `z.norm() >= 2.0` is modelled by the square-free test
  `normSq z ≥ 4` (in exact arithmetic, `|z| ≥ 2 ↔ |z|² ≥ 4`).
* the thread pool and the mpsc channel deliver per-job pixel batches in an
  unspecified order; the aggregation (lines 176-181) writes each pixel at its
  own coordinates and distinct pixels have distinct coordinates, so the fold
  below fixes the job submission order without loss of generality.
-/

/-- Rust `iced::Color` as used by the compute pass: four channel values,
modelled as exact rationals in `[0,1]`. -/
structure FColor where
  r : ℚ
  g : ℚ
  b : ℚ
  a : ℚ
deriving DecidableEq

/-- `Color::TRANSPARENT` (the default/background value of the raster grid,
src/main.rs line 135). -/
def FColor.TRANSPARENT : FColor := ⟨0, 0, 0, 0⟩

/-- `Color::BLACK` (the initial per-pixel color, src/main.rs line 159). -/
def FColor.BLACK : FColor := ⟨0, 0, 0, 1⟩

/-- `Color::from_rgb8` : byte channels scaled into `[0,1]`, alpha 1. -/
def FColor.from_rgb8 (r g b : ℕ) : FColor :=
  ⟨(r : ℚ) / 255, (g : ℚ) / 255, (b : ℚ) / 255, 1⟩

/-- `num::complex::Complex<f32>`, modelled with exact rational parts. -/
structure QComplex where
  re : ℚ
  im : ℚ
deriving DecidableEq

/-- Complex addition. -/
def QComplex.add (z w : QComplex) : QComplex :=
  ⟨z.re + w.re, z.im + w.im⟩

/-- Complex multiplication. -/
def QComplex.mul (z w : QComplex) : QComplex :=
  ⟨z.re * w.re - z.im * w.im, z.re * w.im + z.im * w.re⟩

/-- Squared magnitude; `z.norm() >= 2.0` of the code is `4 ≤ normSq z` here. -/
def QComplex.normSq (z : QComplex) : ℚ :=
  z.re * z.re + z.im * z.im

/-- One loop body step `z = z * z + c` (src/main.rs line 161). -/
def QComplex.step (c z : QComplex) : QComplex :=
  QComplex.add (QComplex.mul z z) c

/-- The orbit of the quadratic map: `zIter c k` is `z` after `k` executions of
`z = z * z + c` starting from `z = 0` (src/main.rs line 158). -/
def zIter (c : QComplex) : ℕ → QComplex
  | 0 => ⟨0, 0⟩
  | k + 1 => QComplex.step c (zIter c k)

/-- Outcome of the escape loop: either the loop broke at index `n`
(src/main.rs line 164) or it ran its full budget. -/
inductive DivergenceResult where
  | Diverged (n : ℕ)
  | Bounded
deriving DecidableEq

/-- Whether a result is the bounded outcome. -/
def DivergenceResult.is_bounded : DivergenceResult → Bool
  | .Bounded => true
  | .Diverged _ => false

/-- The bailout predicate of the code: `z.norm() >= 2.0`
(src/main.rs line 162), in its exact square form. -/
def magnitudeBailout (z : QComplex) : Bool :=
  decide (4 ≤ QComplex.normSq z)

/-- Modelled from the spec: the overflow / non-finite bailout predicate
("`z` ceases to be a finite number", spec §4.2).  It is absent from the code,
which only implements the magnitude threshold; in the exact rational model no
value is ever non-finite, so the predicate never fires. -/
def overflowBailout (_ : QComplex) : Bool :=
  false

/-- The escape loop `for n in 0..max { z = z*z + c; if bailout then break }`
(src/main.rs lines 160-166), parameterised by the bailout predicate, running
with current iterate `z`, current loop index `n` and remaining budget `fuel`. -/
def escapeFromP (p : QComplex → Bool) (c : QComplex) :
    QComplex → ℕ → ℕ → DivergenceResult
  | _, _, 0 => .Bounded
  | z, n, fuel + 1 =>
    let z2 := QComplex.step c z
    if p z2 then .Diverged n else escapeFromP p c z2 (n + 1) fuel

/-- The escape evaluator of the code: loop from `z = 0`, index `0`, with the
magnitude bailout.  The code hard-codes `maxIter = 255`
(`for n in 0..255`, src/main.rs line 160); the budget is kept as a parameter
and the code instance is `evaluate c 255`. -/
def evaluate (c : QComplex) (maxIter : ℕ) : DivergenceResult :=
  escapeFromP magnitudeBailout c ⟨0, 0⟩ 0 maxIter

/-- Modelled from the spec: the evaluator under the overflow bailout policy
(spec §4.2 requires both policies; the code has only the magnitude one). -/
def evaluateOverflow (c : QComplex) (maxIter : ℕ) : DivergenceResult :=
  escapeFromP overflowBailout c ⟨0, 0⟩ 0 maxIter

/-- Horizontal plane step per pixel, `let x_res = 3.0 / bounds.width`
(src/main.rs line 151). -/
def x_res (width : ℚ) : ℚ := 3 / width

/-- Vertical plane step per pixel, `let y_res = 2.0 / bounds.height`
(src/main.rs line 152). -/
def y_res (height : ℚ) : ℚ := 2 / height

/-- The pixel → plane coordinate map of the code (src/main.rs lines 155-156):
`i = -0.5 - x_res * width / 2.0 + x * x_res` and
`j = 0.0 - y_res * height / 2.0 + y * y_res`.  It takes no viewport argument:
center `(-0.5, 0)` and the extents are hard-coded. -/
def codeMap (x y : ℕ) (width height : ℚ) : QComplex :=
  ⟨-0.5 - x_res width * width / 2 + (x : ℚ) * x_res width,
   0 - y_res height * height / 2 + (y : ℚ) * y_res height⟩

/-- Modelled from the spec (§4.1), for comparison with `codeMap`: the mapping
formula exactly as the spec states it, with an explicit viewport
`(centerRe, centerIm, scale)`:
`real = center.re - (3/scale)/2 + x * (3/scale)/width`,
`imag = center.im - (2/scale)/2 + y * (2/scale)/height`. -/
def specMap (centerRe centerIm scale : ℚ) (x y : ℕ) (width height : ℚ) :
    QComplex :=
  ⟨centerRe - 3 / scale / 2 + (x : ℚ) * (3 / scale) / width,
   centerIm - 2 / scale / 2 + (y : ℚ) * (2 / scale) / height⟩

set_option maxRecDepth 8000 in
unseal Rat.add Rat.mul Rat.sub in
example : evaluate ⟨0, 0⟩ 255 = .Bounded := by decide

unseal Rat.add Rat.mul Rat.sub in
example : evaluate ⟨-2, 1⟩ 255 = .Diverged 0 := by decide

unseal Rat.add Rat.mul Rat.sub in
example : evaluate ⟨-1, 0⟩ 5 = .Bounded := by decide

/-- The graded coloring the code applies (src/main.rs lines 159-165):
a pixel that escapes at loop index `n` gets the grayscale value
`Color::from_rgb8(255 - n, 255 - n, 255 - n)`; a bounded pixel keeps the
initial `Color::BLACK`. -/
def gradedColor : DivergenceResult → FColor
  | .Diverged n => FColor.from_rgb8 (255 - n) (255 - n) (255 - n)
  | .Bounded => FColor.BLACK

/-- Modelled from the spec (§4.3): the binary color strategy
(`Bounded → colorA`, `Diverged(_) → colorB`, ignoring the step count).  It is
absent from the code, which hard-codes the graded strategy. -/
def binaryColor (colorA colorB : FColor) : DivergenceResult → FColor
  | .Bounded => colorA
  | .Diverged _ => colorB

/-- The per-pixel color computed by a worker (src/main.rs lines 155-166). -/
def pixelColor (x y width height : ℕ) : FColor :=
  gradedColor (evaluate (codeMap x y (width : ℚ) (height : ℚ)) 255)

/-- The Rust `Pixel` struct (src/main.rs lines 16-21). -/
structure Pixel where
  x : ℕ
  y : ℕ
  color : FColor
deriving DecidableEq

/-- `let n_jobs = 32;` (src/main.rs line 140). -/
def n_jobs : ℕ := 32

/-- `pixel_job_height = bounds.height / n_jobs as f32`, then truncated by
`as usize` at each use (src/main.rs lines 142, 147, 148).  Division by the
power of two 32 is exact in `f32`, so the truncation is the natural floor
division.  Kept parametric in `jobs` (the code fixes `jobs = n_jobs = 32`). -/
def pixel_job_height (height jobs : ℕ) : ℕ :=
  height / jobs

/-- A work unit: the half-open row range handled by one submitted job. -/
structure WorkUnit where
  row_start : ℕ
  row_end : ℕ
deriving DecidableEq

/-- The row ranges submitted to the pool (src/main.rs lines 145-148):
job `i` gets `start_row = i * pixel_job_height` and
`end_row = start_row + pixel_job_height`. -/
def partitionRows (height jobs : ℕ) : List WorkUnit :=
  (List.range jobs).map fun i =>
    ⟨i * pixel_job_height height jobs,
     i * pixel_job_height height jobs + pixel_job_height height jobs⟩

/-- Whether some emitted unit covers row `r`. -/
def coveredBy (units : List WorkUnit) (r : ℕ) : Bool :=
  units.any fun u => decide (u.row_start ≤ r) && decide (r < u.row_end)

/-- The pixel batch one worker emits for its unit (src/main.rs lines 150-169):
`for x in 0..width { for y in start_row..end_row { ... result.push(Pixel) } }`. -/
def workerPixels (width height : ℕ) (u : WorkUnit) : List Pixel :=
  (List.range width).flatMap fun x =>
    (List.range (u.row_end - u.row_start)).map fun d =>
      ⟨x, u.row_start + d, pixelColor x (u.row_start + d) width height⟩

/-- One aggregation write `overall_result[pixel.x][pixel.y] = pixel.color`
(src/main.rs line 179), on the grid viewed as a function of `(x, y)`. -/
def writePixel (g : ℕ → ℕ → FColor) (p : Pixel) : ℕ → ℕ → FColor :=
  fun x y => if x = p.x ∧ y = p.y then p.color else g x y

/-- The freshly allocated grid: every in-bounds cell holds
`Color::TRANSPARENT` (src/main.rs lines 131-138). -/
def initGrid : ℕ → ℕ → FColor :=
  fun _ _ => FColor.TRANSPARENT

/-- The aggregation loop (src/main.rs lines 176-181): all `n_jobs` received
batches written into the grid.  The mpsc channel delivers batches in an
unspecified order; since every write is keyed by its own pixel coordinates
and distinct emitted pixels have distinct coordinates, the submission order
used here is one faithful serialization. -/
def aggregateAll (width height jobs : ℕ) : ℕ → ℕ → FColor :=
  ((partitionRows height jobs).flatMap (workerPixels width height)).foldl
    writePixel initGrid

/-- `(channel * 255.0) as u8` (src/main.rs lines 187-189): for channel values
in `[0,1]` the `f32 → u8` cast truncates toward zero, i.e. takes the floor. -/
def toByte (q : ℚ) : ℕ :=
  (q * 255).floor.toNat

/-- The flat row-major RGBA byte buffer (src/main.rs lines 183-192); the
alpha byte is the constant 255 (line 190). -/
def bufferBytes (width height jobs : ℕ) : List ℕ :=
  (List.range height).flatMap fun j =>
    (List.range width).flatMap fun i =>
      [toByte (aggregateAll width height jobs i j).r,
       toByte (aggregateAll width height jobs i j).g,
       toByte (aggregateAll width height jobs i j).b,
       255]

/-- `iced::Rectangle` (the `region` argument, src/main.rs line 130). -/
structure Rectangle where
  x : ℚ
  y : ℚ
  width : ℚ
  height : ℚ
deriving DecidableEq

/-- The result of `image::Handle::from_rgba(width, height, bytes)`
(src/main.rs lines 194-198). -/
structure ImageHandle where
  width : ℕ
  height : ℕ
  bytes : List ℕ
deriving DecidableEq

/-- The whole compute pass `threaded_fractal_calc(pool, bounds, region)`
(src/main.rs lines 130-199).  The thread pool only affects scheduling, not
the produced data, and is not part of the data model.  Note the function
body never reads `region`, performs no dimension validation, and has no
error return path: the return type is a plain image handle. -/
def threaded_fractal_calc (width height : ℕ) (region : Rectangle) :
    ImageHandle :=
  ⟨width, height, bufferBytes width height n_jobs⟩

/-- The receive loop (src/main.rs lines 176-181): the caller performs exactly
`n_jobs` blocking `rx.recv().unwrap()` calls.  A report of `none` models a
submitted unit whose worker never sends (dead task / dropped sender): `recv`
then yields an error and `unwrap` panics; the panic outcome is the `none`
result.  There is no timeout and no `WorkerLost` error value on this path. -/
def recvAll (reports : List (Option (List Pixel))) :
    Option (List (List Pixel)) :=
  reports.foldr
    (fun r acc =>
      match r, acc with
      | some ps, some rest => some (ps :: rest)
      | _, _ => none)
    (some [])

example : coveredBy (partitionRows 720 32) 703 = true := by decide

example : coveredBy (partitionRows 720 32) 704 = false := by decide

/-! ## Partition characterization -/

/-- Exact coverage of the code's partition: a row is covered by some emitted
unit precisely when it lies below `job_count * ⌊height / job_count⌋`.  In
particular coverage of `[0, height)` is complete exactly when `job_count`
divides `height`; otherwise the trailing `height mod job_count` rows belong
to no unit. -/
lemma coveredBy_partitionRows_iff (height jobs r : ℕ) :
    coveredBy (partitionRows height jobs) r = true ↔
      r < jobs * (height / jobs) := by
  simp only [coveredBy, partitionRows, List.any_eq_true, List.mem_map,
    List.mem_range, Bool.and_eq_true, decide_eq_true_eq, pixel_job_height]
  constructor
  · rintro ⟨u, ⟨i, hi, rfl⟩, h1, h2⟩
    simp only at h1 h2
    have hij : i + 1 ≤ jobs := hi
    have h3 : (i + 1) * (height / jobs) ≤ jobs * (height / jobs) :=
      Nat.mul_le_mul_right _ hij
    have h4 : i * (height / jobs) + height / jobs
        = (i + 1) * (height / jobs) := by
      ring
    omega
  · intro h
    have hk : 0 < height / jobs := by
      rcases Nat.eq_zero_or_pos (height / jobs) with h0 | h0
      · rw [h0, Nat.mul_zero] at h
        omega
      · exact h0
    refine ⟨_, ⟨r / (height / jobs), (Nat.div_lt_iff_lt_mul hk).mpr (by omega),
      rfl⟩, Nat.div_mul_le_self r _, ?_⟩
    have h5 := Nat.div_add_mod r (height / jobs)
    have h6 := Nat.mod_lt r hk
    have h7 : r / (height / jobs) * (height / jobs)
        = height / jobs * (r / (height / jobs)) := Nat.mul_comm _ _
    simp only
    omega

/-- Disjointness of the code's partition: a row inside the ranges of units
`i` and `j` forces `i = j`, so no row is handled by two different jobs (and
each covered pixel is written exactly once during aggregation). -/
lemma partitionRows_units_disjoint (height jobs i j r : ℕ)
    (hi1 : i * (height / jobs) ≤ r)
    (hi2 : r < i * (height / jobs) + height / jobs)
    (hj1 : j * (height / jobs) ≤ r)
    (hj2 : r < j * (height / jobs) + height / jobs) :
    i = j := by
  by_contra hne
  rcases Nat.lt_or_ge i j with h | h
  · have h3 : (i + 1) * (height / jobs) ≤ j * (height / jobs) :=
      Nat.mul_le_mul_right _ h
    have h4 : (i + 1) * (height / jobs)
        = i * (height / jobs) + height / jobs := by
      ring
    omega
  · have hlt : j < i := by omega
    have h3 : (j + 1) * (height / jobs) ≤ i * (height / jobs) :=
      Nat.mul_le_mul_right _ hlt
    have h4 : (j + 1) * (height / jobs)
        = j * (height / jobs) + height / jobs := by
      ring
    omega

/-! ## Claim theorems -/

unseal Rat.mul in
/-- C1: the claim states that for all positive dimensions every pixel of the
returned raster has been written, so no cell still holds the default
background value.  The code violates this: with the valid dimensions
`width = 1, height = 1` the 32 submitted units all have the empty row range
`[0, 0)` (since `⌊1 / 32⌋ = 0`), so pixel `(0,0)` is never written, the grid
cell still holds `Color::TRANSPARENT` after aggregation, and the returned
byte buffer contains the background bytes `[0,0,0,255]` for that pixel. -/
theorem C1_default_pixel_survives :
    aggregateAll 1 1 n_jobs 0 0 = FColor.TRANSPARENT ∧
    bufferBytes 1 1 n_jobs = [0, 0, 0, 255] := by
  decide

/-- C2: the claim states the emitted units are disjoint and cover `[0,height)`
exactly for any `job_count ∈ [1, height]`, the last unit being clamped to
`height`.  The code violates the coverage: at the default window height 720
with the hard-coded `job_count = n_jobs = 32` (which lies in `[1, 720]`),
rows 704-719 are covered by no unit — `⌊720/32⌋ = 22` and the last unit is
`[682, 704)`, with no clamping to 720.  Row 703 is covered, row 704 and the
last row 719 are not. -/
theorem C2_partition_drops_rows :
    1 ≤ n_jobs ∧ n_jobs ≤ 720 ∧
    coveredBy (partitionRows 720 n_jobs) 703 = true ∧
    coveredBy (partitionRows 720 n_jobs) 704 = false ∧
    coveredBy (partitionRows 720 n_jobs) 719 = false := by
  decide

/-- C5: the claim states a lost worker is converted into a `WorkerLost` error
within a timeout.  The code violates this: the receive loop is `n_jobs`
unconditional `recv().unwrap()` calls with no timeout and no error value; if
a submitted unit's worker dies with the sender dropped, the `unwrap` panics
(outcome `none` in the model) — and a worker that keeps its sender alive but
never sends blocks the caller forever.  No `WorkerLost` kind exists. -/
theorem C5_lost_worker_panics :
    recvAll (List.replicate (n_jobs - 1) (some []) ++ [none]) = none := by
  decide

/-- C6: the claim states degenerate dimensions are rejected with an
`InvalidDimensions` error before partitioning.  The code violates this: it
performs no dimension validation and its return type has no error variant at
all; with `width = 0` it silently returns a normal image handle whose byte
buffer is empty, after running the whole partition/dispatch pipeline. -/
theorem C6_no_dimension_validation :
    threaded_fractal_calc 0 5 ⟨0, 0, 0, 0⟩ = ⟨0, 5, []⟩ := by
  decide

/-- C10: the raster produced by `threaded_fractal_calc` does not depend on
its `region` argument: the function body never reads it — the plane mapping
uses only the hard-coded center `(-0.5, 0)` and the fixed extents
`3.0/width`, `2.0/height` — so any two region rectangles give identical
results. -/
theorem C10_region_ignored (w h : ℕ) (r1 r2 : Rectangle) :
    threaded_fractal_calc w h r1 = threaded_fractal_calc w h r2 :=
  rfl

unseal Rat.add Rat.mul Rat.sub Rat.inv Rat.ofScientific in
/-- C3 counterexample: the claim asserts the mapper realises the spec formula
for every viewport `(center, scale)`; but the code's mapper takes no viewport
at all, so the formula fails for any viewport other than the hard-coded one —
here at `center = (0,0)`, `scale = 1`, pixel `(0,0)`, dimensions `4 × 4`:
the code maps to real part `-2` while the claimed formula gives `-3/2`. -/
theorem C3_counterexample :
    codeMap 0 0 4 4 ≠ specMap 0 0 1 0 0 4 4 := by
  decide

/-- C3 amended: the mapper realises exactly the spec formula specialised to
the hard-coded viewport `center = (-0.5, 0)`, `scale = 1` — a linear map with
horizontal plane extent 3 and vertical extent 2, pixel `(0,0)` top-left —
for all pixels and all nonzero dimensions. -/
theorem C3_amended (x y : ℕ) (width height : ℚ)
    (hw : width ≠ 0) (hh : height ≠ 0) :
    codeMap x y width height = specMap (-0.5) 0 1 x y width height := by
  simp only [codeMap, specMap, x_res, y_res, QComplex.mk.injEq]
  constructor <;> field_simp

theorem C3_amended_witness :
    (4 : ℚ) ≠ 0 ∧ (3 : ℚ) ≠ 0 ∧
    codeMap 1 2 4 3 = specMap (-0.5) 0 1 1 2 4 3 :=
  ⟨by norm_num, by norm_num, C3_amended 1 2 4 3 (by norm_num) (by norm_num)⟩

unseal Rat.mul Rat.inv in
/-- C7 counterexample: the claim asserts the graded shade is monotone
non-decreasing in the escape step; the code's shade is `255 - n`, which
decreases: at steps `0 ≤ 1` (both below the budget 255) the shade of
`Diverged 0` is `1` and the shade of `Diverged 1` is `254/255`, so
`shade(Diverged 0) ≤ shade(Diverged 1)` fails. -/
theorem C7_counterexample :
    (0 : ℕ) ≤ 1 ∧ (1 : ℕ) < 255 ∧
    ¬ (gradedColor (.Diverged 0)).r ≤ (gradedColor (.Diverged 1)).r := by
  decide

/-- C7 amended: the graded strategy is monotone non-increasing in the escape
step — for steps `m ≤ n` within the budget, the shade of `Diverged n` is at
most the shade of `Diverged m` — and the binary strategy (modelled from the
spec, absent from the code) depends only on `is_bounded`. -/
theorem C7_amended :
    (∀ m n : ℕ, m ≤ n → n < 255 →
      (gradedColor (.Diverged n)).r ≤ (gradedColor (.Diverged m)).r) ∧
    (∀ a b : FColor, ∀ r s : DivergenceResult,
      r.is_bounded = s.is_bounded → binaryColor a b r = binaryColor a b s) := by
  constructor
  · intro m n hmn _hn
    simp only [gradedColor, FColor.from_rgb8]
    have h : ((255 - n : ℕ) : ℚ) ≤ ((255 - m : ℕ) : ℚ) := by
      exact_mod_cast Nat.sub_le_sub_left hmn 255
    exact (div_le_div_iff_of_pos_right (by norm_num)).mpr h
  · intro a b r s hrs
    cases r <;> cases s <;> simp_all [binaryColor, DivergenceResult.is_bounded]

theorem C7_amended_witness :
    ((3 : ℕ) ≤ 7 ∧ (7 : ℕ) < 255 ∧
      (gradedColor (.Diverged 7)).r ≤ (gradedColor (.Diverged 3)).r) ∧
    (DivergenceResult.is_bounded (.Diverged 5)
        = DivergenceResult.is_bounded (.Diverged 9) ∧
      binaryColor FColor.BLACK FColor.TRANSPARENT (.Diverged 5)
        = binaryColor FColor.BLACK FColor.TRANSPARENT (.Diverged 9)) :=
  ⟨⟨by decide, by decide, C7_amended.1 3 7 (by decide) (by decide)⟩,
   ⟨rfl, C7_amended.2 FColor.BLACK FColor.TRANSPARENT
      (.Diverged 5) (.Diverged 9) rfl⟩⟩

/-! ## Escape evaluator characterization (C4, C9) -/

/-- Unfolding equation of one escape-loop iteration. -/
lemma escapeFromP_step (p : QComplex → Bool) (c z : QComplex) (n fuel : ℕ) :
    escapeFromP p c z n (fuel + 1)
      = if p (QComplex.step c z) then .Diverged n
        else escapeFromP p c (QComplex.step c z) (n + 1) fuel := rfl

/-- The loop started at orbit point `k` breaks with `Diverged m` exactly when
`m` is the first index at or after `k`, within the budget, whose updated
iterate satisfies the bailout predicate. -/
lemma escapeFromP_diverged_iff (p : QComplex → Bool) (c : QComplex) :
    ∀ (fuel k m : ℕ),
      escapeFromP p c (zIter c k) k fuel = .Diverged m ↔
        (k ≤ m ∧ m < k + fuel ∧ p (zIter c (m + 1)) = true ∧
          ∀ i, k ≤ i → i < m → p (zIter c (i + 1)) = false) := by
  intro fuel
  induction fuel with
  | zero =>
    intro k m
    constructor
    · intro h
      exact absurd h (by simp [escapeFromP])
    · rintro ⟨h1, h2, -, -⟩
      omega
  | succ fuel ih =>
    intro k m
    rw [escapeFromP_step]
    by_cases hp : p (QComplex.step c (zIter c k)) = true
    · rw [if_pos hp]
      have hp1 : p (zIter c (k + 1)) = true := hp
      constructor
      · intro h
        injection h with hkm
        subst hkm
        exact ⟨le_refl k, by omega, hp1,
          fun i h1 h2 => absurd (Nat.lt_of_le_of_lt h1 h2) (Nat.lt_irrefl k)⟩
      · rintro ⟨h1, h2, h3, h4⟩
        have hm : m = k := by
          by_contra hne
          have hk : k < m := lt_of_le_of_ne h1 (Ne.symm hne)
          have hfalse := h4 k (le_refl k) hk
          rw [hp1] at hfalse
          cases hfalse
        rw [hm]
    · rw [if_neg hp]
      have hp1 : p (zIter c (k + 1)) = false := by
        have h := hp
        rwa [Bool.not_eq_true] at h
      have hrec := ih (k + 1) m
      rw [show QComplex.step c (zIter c k) = zIter c (k + 1) from rfl, hrec]
      constructor
      · rintro ⟨h1, h2, h3, h4⟩
        refine ⟨by omega, by omega, h3, fun i hi1 hi2 => ?_⟩
        rcases eq_or_lt_of_le hi1 with h | hlt
        · rw [← h]
          exact hp1
        · exact h4 i hlt hi2
      · rintro ⟨h1, h2, h3, h4⟩
        have hkm : k + 1 ≤ m := by
          rcases eq_or_lt_of_le h1 with h | h
          · rw [← h] at h3
            rw [h3] at hp1
            cases hp1
          · omega
        exact ⟨hkm, by omega, h3, fun i hi1 hi2 => h4 i (by omega) hi2⟩

/-- The loop started at orbit point `k` runs its whole budget exactly when no
updated iterate within the budget satisfies the bailout predicate. -/
lemma escapeFromP_bounded_iff (p : QComplex → Bool) (c : QComplex) :
    ∀ (fuel k : ℕ),
      escapeFromP p c (zIter c k) k fuel = .Bounded ↔
        ∀ i, k ≤ i → i < k + fuel → p (zIter c (i + 1)) = false := by
  intro fuel
  induction fuel with
  | zero =>
    intro k
    constructor
    · intro _ i h1 h2
      omega
    · intro _
      rfl
  | succ fuel ih =>
    intro k
    rw [escapeFromP_step]
    by_cases hp : p (QComplex.step c (zIter c k)) = true
    · rw [if_pos hp]
      have hp1 : p (zIter c (k + 1)) = true := hp
      constructor
      · intro h
        exact absurd h (by simp)
      · intro hall
        have h := hall k (le_refl k) (by omega)
        rw [hp1] at h
        cases h
    · rw [if_neg hp]
      have hp1 : p (zIter c (k + 1)) = false := by
        have h := hp
        rwa [Bool.not_eq_true] at h
      rw [show QComplex.step c (zIter c k) = zIter c (k + 1) from rfl, ih (k + 1)]
      constructor
      · intro hall i hi1 hi2
        rcases eq_or_lt_of_le hi1 with h | hlt
        · rw [← h]
          exact hp1
        · exact hall i hlt (by omega)
      · intro hall i hi1 hi2
        exact hall i (by omega) (by omega)

/-- The boolean magnitude bailout fires exactly on `|z|² ≥ 4`, i.e.
`|z| ≥ 2`. -/
lemma magnitudeBailout_true_iff (w : QComplex) :
    magnitudeBailout w = true ↔ 4 ≤ QComplex.normSq w := by
  simp [magnitudeBailout]

/-- The boolean magnitude bailout stays quiet exactly on `|z|² < 4`. -/
lemma magnitudeBailout_false_iff (w : QComplex) :
    magnitudeBailout w = false ↔ QComplex.normSq w < 4 := by
  simp [magnitudeBailout, not_le]

/-- C4: for every input `c` and every budget `M`, the evaluator iterates
`z ← z² + c` from `z = 0`: it reports `Diverged n` exactly for the first loop
index `n ∈ [0, M)` whose updated iterate satisfies the bailout `|z| ≥ 2`
(equivalently `|z|² ≥ 4`, `zIter c (n+1)` being the iterate the code tests at
index `n`), reports `Bounded` exactly when the bailout never holds within the
budget, and — being a total function whose result is always one of these two
shapes — always terminates within `M` steps with no failure mode. -/
theorem C4_escape_evaluator (c : QComplex) (M : ℕ) :
    (∀ n, evaluate c M = .Diverged n ↔
      (n < M ∧ 4 ≤ QComplex.normSq (zIter c (n + 1)) ∧
        ∀ m, m < n → QComplex.normSq (zIter c (m + 1)) < 4)) ∧
    (evaluate c M = .Bounded ↔
      ∀ n, n < M → QComplex.normSq (zIter c (n + 1)) < 4) ∧
    (evaluate c M = .Bounded ∨ ∃ n, n < M ∧ evaluate c M = .Diverged n) := by
  have hdiv : ∀ n, evaluate c M = .Diverged n ↔
      (n < M ∧ 4 ≤ QComplex.normSq (zIter c (n + 1)) ∧
        ∀ m, m < n → QComplex.normSq (zIter c (m + 1)) < 4) := by
    intro n
    have h := escapeFromP_diverged_iff magnitudeBailout c M 0 n
    rw [show zIter c 0 = (⟨0, 0⟩ : QComplex) from rfl] at h
    rw [show evaluate c M = escapeFromP magnitudeBailout c ⟨0, 0⟩ 0 M from rfl,
      h]
    constructor
    · rintro ⟨-, h2, h3, h4⟩
      exact ⟨by omega, (magnitudeBailout_true_iff _).mp h3,
        fun m hm => (magnitudeBailout_false_iff _).mp (h4 m (by omega) hm)⟩
    · rintro ⟨h1, h2, h3⟩
      exact ⟨by omega, by omega, (magnitudeBailout_true_iff _).mpr h2,
        fun i _ hi => (magnitudeBailout_false_iff _).mpr (h3 i hi)⟩
  have hbnd : evaluate c M = .Bounded ↔
      ∀ n, n < M → QComplex.normSq (zIter c (n + 1)) < 4 := by
    have h := escapeFromP_bounded_iff magnitudeBailout c M 0
    rw [show zIter c 0 = (⟨0, 0⟩ : QComplex) from rfl] at h
    rw [show evaluate c M = escapeFromP magnitudeBailout c ⟨0, 0⟩ 0 M from rfl,
      h]
    constructor
    · intro hall n hn
      exact (magnitudeBailout_false_iff _).mp (hall n (by omega) (by omega))
    · intro hall i _ hi
      exact (magnitudeBailout_false_iff _).mpr (hall i (by omega))
  refine ⟨hdiv, hbnd, ?_⟩
  cases h : evaluate c M with
  | Diverged n => exact Or.inr ⟨n, ((hdiv n).mp h).1, rfl⟩
  | Bounded => exact Or.inl rfl

/-- With a bailout predicate that does not fire at the origin, the loop on
`c = 0` never breaks: the iterate is pinned at `0`. -/
lemma escapeFromP_origin (p : QComplex → Bool) (hp : p ⟨0, 0⟩ = false) :
    ∀ (fuel n : ℕ), escapeFromP p ⟨0, 0⟩ ⟨0, 0⟩ n fuel = .Bounded := by
  intro fuel
  induction fuel with
  | zero =>
    intro n
    rfl
  | succ fuel ih =>
    intro n
    rw [escapeFromP_step]
    have hstep : QComplex.step ⟨0, 0⟩ ⟨0, 0⟩ = ⟨0, 0⟩ := by
      simp [QComplex.step, QComplex.mul, QComplex.add]
    rw [hstep, hp]
    simp only [Bool.false_eq_true, if_false]
    exact ih (n + 1)

/-- C9: for the input `c = 0 + 0i` the evaluator reports `Bounded` for every
iteration budget (in particular every positive one), both under the code's
magnitude-threshold bailout and under the spec-modelled overflow/non-finite
bailout (which never fires in exact arithmetic): the orbit of `0` is
constantly `0` and never escapes. -/
theorem C9_origin_bounded (M : ℕ) :
    evaluate ⟨0, 0⟩ M = .Bounded ∧ evaluateOverflow ⟨0, 0⟩ M = .Bounded := by
  constructor
  · exact escapeFromP_origin magnitudeBailout
      (by simp [magnitudeBailout, QComplex.normSq]) M 0
  · exact escapeFromP_origin overflowBailout rfl M 0

set_option maxRecDepth 40000 in
unseal Rat.add Rat.mul Rat.sub Rat.inv Rat.ofScientific in
/-- C8: the claim asserts that re-running with a different `job_count` over
the same viewport yields a bit-identical raster (plain re-running is
deterministic in the model: the compute pass is a pure function).  The code
violates the `job_count` half through the truncating partition: at
`width = 1, height = 50`, `job_count = 1` covers all 50 rows while
`job_count = 40` covers only `[0, 40)` (`⌊50/40⌋ = 1`), so pixel `(0, 45)` —
whose plane point `(-2, 0.8)` escapes immediately and is colored white — is
left at the TRANSPARENT default, and the two byte buffers differ. -/
theorem C8_jobcount_changes_buffer :
    bufferBytes 1 50 1 ≠ bufferBytes 1 50 40 ∧
    aggregateAll 1 50 1 0 45 = FColor.from_rgb8 255 255 255 ∧
    aggregateAll 1 50 40 0 45 = FColor.TRANSPARENT := by
  decide
